import Mathlib

/-!
Verification of the agent orchestration module (`package agent`) of the
gentica repository.  The Go source is shallowly embedded: pure fragments
become Lean functions, the mutex-guarded maps become explicit state
records, Go slices written by index become functions `Nat → _`, Go
`float64` cost arithmetic is modelled exactly over `ℚ`, and Go errors
are modelled with their identity-based `errors.Is` semantics.
-/

namespace Gentica

/-- FinishReason of an assistant message.  Modelled from the spec: the
message package is not part of the provided sources; the spec lists the
finish reasons tool-use / end-turn / canceled / error / permission-denied,
with "none yet" modelled as `Option.none` at use sites (Go stores the
reason as a string, empty when unset). -/
inductive FinishReason
  | toolUse
  | endTurn
  | canceled
  | error
  | permissionDenied
deriving DecidableEq

/-- Go errors of this module.  `errRequestCancelled` and `contextCanceled`
are the package-level sentinels (`errors.New` run once at init), `fresh`
is an error value allocated at some program point (e.g. `fmt.Errorf`),
and `wrapped` is `fmt.Errorf` with `%w`. -/
inductive GoError
  | errRequestCancelled
  | contextCanceled
  | fresh (msg : String)
  | wrapped (msg : String) (inner : GoError)
deriving DecidableEq

/-- The unwrap chain of an error, as walked by Go `errors.Is`. -/
def GoError.chain : GoError → List GoError
  | .wrapped m inner => .wrapped m inner :: inner.chain
  | e => [e]

/-- Comparison targets that appear in the module's `errors.Is` calls:
the two sentinels, and a freshly allocated `fmt.Errorf(...)` value
(as in `errors.Is(toolErr, fmt.Errorf("permission denied"))`). -/
inductive ErrTarget
  | errRequestCancelled
  | contextCanceled
  | freshErrorf (msg : String)

/-- Go `errors.Is(e, target)`: walks the unwrap chain of `e` comparing by
identity.  A sentinel is identified with its unique allocation, so the
chain test is exact.  A `freshErrorf` target is a brand-new allocation at
the comparison site: no error value in the program can be identical to
it, and no error type in this repository defines a custom `Is` method,
so the test is false for every `e`. -/
def errorsIs (e : GoError) : ErrTarget → Bool
  | .errRequestCancelled => e.chain.any fun x => decide (x = GoError.errRequestCancelled)
  | .contextCanceled => e.chain.any fun x => decide (x = GoError.contextCanceled)
  | .freshErrorf _ => false

/-- ToolCall (message package / tools package): id, name, input. -/
structure ToolCall where
  id : String
  name : String
  input : String
deriving DecidableEq

instance : Inhabited ToolCall := ⟨⟨"", "", ""⟩⟩

/-- ToolResult (message package): answers a tool call. -/
structure ToolResult where
  toolCallID : String
  content : String
  metadata : String
  isError : Bool
deriving DecidableEq

/-- ToolResponse (tools package): what a tool's `Run` returns on success. -/
structure ToolResponse where
  content : String
  metadata : String
  isError : Bool
deriving DecidableEq

/-- A configured tool: a name and a `Run` contract.  Go `Run` returns
`(ToolResponse, error)`; the pair's second component is the error. -/
structure BaseTool where
  name : String
  run : ToolCall → ToolResponse × Option GoError

/-- Content parts of a message.  Modelled from the spec: text parts,
binary attachment parts and tool-result parts (the part kinds the agent
module constructs); the message package itself is not in the sources. -/
inductive ContentPart
  | text (s : String)
  | binary (path mime data : String)
  | toolResultPart (tr : ToolResult)
deriving DecidableEq

/-- Message roles used by the agent module. -/
inductive Role
  | user
  | assistant
  | tool
deriving DecidableEq

/-- Message.  Modelled from the spec: role, ordered content parts, a
finish reason (none until set; `AddFinish` finalizes the message by
setting it), plus session/model/provider labels. -/
structure Message where
  sessionID : String
  role : Role
  parts : List ContentPart
  finishReason : Option FinishReason
  model : String
  provider : String
deriving DecidableEq

instance : Inhabited Message := ⟨⟨"", .user, [], none, "", ""⟩⟩

/-- Token usage reported on a complete event (int64 fields in Go). -/
structure TokenUsage where
  inputTokens : Int
  outputTokens : Int
  cacheCreationTokens : Int
  cacheReadTokens : Int
deriving DecidableEq

/-- ModelInfo: capability flags and per-million-token prices.  Go uses
`float64` prices; they are modelled exactly over `ℚ`. -/
structure ModelInfo where
  id : String
  name : String
  supportsImages : Bool
  supportsTools : Bool
  costPer1MIn : ℚ
  costPer1MOut : ℚ
  costPer1MInCached : ℚ
  costPer1MOutCached : ℚ
deriving DecidableEq

/-- Session accounting state.  Modelled from the spec: accumulated cost
and accumulated prompt/completion token counts (session package is not
in the sources). -/
structure SessionData where
  cost : ℚ
  promptTokens : Int
  completionTokens : Int
deriving DecidableEq

/-- The price of a usage record under a model's per-million-token rates,
exactly the cost expression of `TrackUsage`. -/
def usageCost (model : ModelInfo) (usage : TokenUsage) : ℚ :=
  model.costPer1MInCached / 1000000 * usage.cacheCreationTokens +
  model.costPer1MOutCached / 1000000 * usage.cacheReadTokens +
  model.costPer1MIn / 1000000 * usage.inputTokens +
  model.costPer1MOut / 1000000 * usage.outputTokens

/-- Function `TrackUsage` (agent.go): computes the incremental cost, adds it to the
session's running cost with `+=`, and assigns (plain `=`) the session's
completion and prompt token fields from this usage record, then saves the
session.  The save is the external store persisting exactly this value. -/
def TrackUsage (model : ModelInfo) (usage : TokenUsage) (sess : SessionData) : SessionData :=
  { cost := sess.cost + usageCost model usage
    completionTokens := usage.outputTokens + usage.cacheReadTokens
    promptTokens := usage.inputTokens + usage.cacheCreationTokens }

/-- Coarse agent state. -/
inductive AgentState
  | idle
  | processing
deriving DecidableEq

/-- The agent's mutex-guarded mutable state: the set of sessions with an
active request (`activeRequests`, a map from session id to a non-nil
cancel handle — only the keys matter to the embedded operations), the
per-session pending prompt queue (`promptQueue`, a map from session id
to a slice of strings, association-list encoded), and the coarse state. -/
structure AgentSt where
  activeRequests : List String
  promptQueue : List (String × List String)
  state : AgentState
deriving DecidableEq

/-- Go map read `promptQueue[sid]`: the entry, or nil when absent. -/
def lookupQueue : List (String × List String) → String → List String
  | [], _ => []
  | p :: rest, sid => if p.1 = sid then p.2 else lookupQueue rest sid

/-- Go map write `promptQueue[sid] = v`. -/
def setQueue : List (String × List String) → String → List String → List (String × List String)
  | [], sid, v => [(sid, v)]
  | p :: rest, sid, v => if p.1 = sid then (sid, v) :: rest else p :: setQueue rest sid v

/-- Go map `delete(promptQueue, sid)`. -/
def deleteQueue (q : List (String × List String)) (sid : String) : List (String × List String) :=
  q.filter fun p => ! decide (p.1 = sid)

/-- Function `IsSessionBusy` (agent.go): membership in the active request map. -/
def IsSessionBusy (st : AgentSt) (sessionID : String) : Bool :=
  st.activeRequests.any fun s => decide (s = sessionID)

/-- Function `QueuedPrompts` (agent.go): length of the session's pending queue. -/
def QueuedPrompts (st : AgentSt) (sessionID : String) : Nat :=
  (lookupQueue st.promptQueue sessionID).length

/-- Result of `Cancel`: the successor state and whether a cancel handle
was found and invoked. -/
structure CancelOutcome where
  st : AgentSt
  cancelInvoked : Bool
deriving DecidableEq

/-- Function `Cancel` (agent.go): if the session has an entry in the active
request map (every stored handle is non-nil, being produced by
`context.WithCancel`), invoke it and delete the entry; then, separately,
delete the session's prompt-queue entry when it is non-empty. -/
def Cancel (st : AgentSt) (sessionID : String) : CancelOutcome :=
  let hit := IsSessionBusy st sessionID
  let active :=
    if hit then st.activeRequests.filter (fun s => ! decide (s = sessionID))
    else st.activeRequests
  let pq :=
    if (lookupQueue st.promptQueue sessionID).length > 0 then deleteQueue st.promptQueue sessionID
    else st.promptQueue
  ⟨{ st with activeRequests := active, promptQueue := pq }, hit⟩

/-- An attachment passed to `Run`. -/
structure Attachment where
  filePath : String
  mimeType : String
  content : String
deriving DecidableEq

/-- The binary content parts the worker goroutine builds from the (already
filtered) attachments, agent.go lines 266-269. -/
def attachmentParts (attachments : List Attachment) : List ContentPart :=
  attachments.map fun a => .binary a.filePath a.mimeType a.content

/-- Function `createUserMessage` (agent.go): a User message whose parts are the
text content followed by the attachment parts; the store's `Create`
(modelled from the spec) persists and returns exactly this message. -/
def createUserMessage (sessionID content : String) (aps : List ContentPart) : Message :=
  { sessionID := sessionID, role := .user, parts := .text content :: aps,
    finishReason := none, model := "", provider := "" }

/-- The synchronous outcome of `Run` (agent.go lines 237-296):
whether a non-nil event channel was returned, the returned error, the
successor shared state, whether a worker goroutine was spawned, and the
attachments variable as the spawned worker will read it (after the
image-support filter). -/
structure RunSyncResult where
  chanReturned : Bool
  err : Option GoError
  st : AgentSt
  workerStarted : Bool
  effAttachments : List Attachment
deriving DecidableEq

/-- Function `Run`, synchronous prefix (agent.go): drop attachments when the
model lacks image support; when the session is busy, append the content
to its pending queue and return `(nil, nil)`; otherwise register a
cancel handle, flip the state to processing and spawn the worker,
returning the event channel with a nil error. -/
def RunSync (st : AgentSt) (model : ModelInfo) (sessionID content : String)
    (attachments : List Attachment) : RunSyncResult :=
  let attachments := if !model.supportsImages && !attachments.isEmpty then [] else attachments
  if IsSessionBusy st sessionID then
    let pq := setQueue st.promptQueue sessionID (lookupQueue st.promptQueue sessionID ++ [content])
    { chanReturned := false, err := none,
      st := { st with promptQueue := pq },
      workerStarted := false, effAttachments := attachments }
  else
    { chanReturned := true, err := none,
      st := { st with activeRequests := sessionID :: st.activeRequests, state := .processing },
      workerStarted := true, effAttachments := attachments }

/-- The tool result written for a call that is overtaken by cancellation
(agent.go lines 459-463 and 510-514). -/
def canceledResult (c : ToolCall) : ToolResult :=
  { toolCallID := c.id, content := "Tool execution canceled by user", metadata := "", isError := true }

/-- The tool result written when no configured tool has the call's name
(agent.go lines 477-484). -/
def notFoundResult (c : ToolCall) : ToolResult :=
  { toolCallID := c.id, content := "Tool not found: " ++ c.name, metadata := "", isError := true }

/-- The tool result written from a tool's response (agent.go 541-546). -/
def respResult (c : ToolCall) (r : ToolResponse) : ToolResult :=
  { toolCallID := c.id, content := r.content, metadata := r.metadata, isError := r.isError }

/-- The tool result written at index `i` by the permission-denied branch
(agent.go lines 525-529). -/
def permDeniedResult (c : ToolCall) : ToolResult :=
  { toolCallID := c.id, content := "Permission denied", metadata := "", isError := true }

/-- Tool lookup by name against the configured tool set: first match wins
(agent.go lines 469-474). -/
def lookupTool (toolsList : List BaseTool) (nm : String) : Option BaseTool :=
  toolsList.find? fun t => decide (t.name = nm)

/-- The `errors.Is(toolErr, fmt.Errorf("permission denied"))` test of
agent.go line 524, applied to the error component of a tool run. -/
def permDeniedCheck : Option GoError → Bool
  | some e => errorsIs e (.freshErrorf "permission denied")
  | none => false

/-- State threaded through the tool dispatch loop: the `toolResults`
slice (allocated by `make` with the calls' length and written by index,
embedded as a function from index, zero-valued ToolResult elsewhere),
the assistant message's finish reason as updated by `finishMessage`
calls, and the indices whose tool `Run` was launched, in launch order. -/
structure DispatchState where
  results : Nat → ToolResult
  msgFinish : Option FinishReason
  invoked : List Nat

/-- Write `toolResults[i] = v`. -/
def setRes (res : Nat → ToolResult) (i : Nat) (v : ToolResult) : Nat → ToolResult :=
  fun j => if j = i then v else res j

/-- The `for j := i; j < len(toolCalls); j++` cancellation marking loops
(agent.go 458-464 and 509-515): overwrite every index from `i` up to the
end with the canceled result for that call. -/
def markCanceledFrom (allCalls : List ToolCall) (i : Nat) (res : Nat → ToolResult) : Nat → ToolResult :=
  fun j => if i ≤ j ∧ j < allCalls.length then canceledResult (allCalls.getD j default) else res j

/-- The tool dispatch loop of `streamAndHandleEvents` (agent.go lines
453-548), after the provider stream has closed.  `rest` is the suffix of
`allCalls` from index `i` on; `dB i` tells whether the top-of-iteration
`select` observes `ctx.Done()` at index `i`, and `dD i` whether the race
between the tool goroutine and `ctx.Done()` is won by cancellation.
Observing cancellation finalizes the message as Canceled, marks indices
`i` to the end canceled and jumps out (`goto out`).  A missing tool
yields a not-found result and `continue`.  A run whose error passes the
permission-denied test writes the permission results, finalizes the
message as Permission-Denied, and then — because the Go `break` exits
only the enclosing `select`, not the `for` loop — the loop proceeds with
the next index.  Any other run records the response as the result. -/
def dispatchGo (toolsList : List BaseTool) (allCalls : List ToolCall) (dB dD : Nat → Bool) :
    List ToolCall → Nat → DispatchState → DispatchState
  | [], _, st => st
  | call :: rest, i, st =>
    if dB i then
      { st with msgFinish := some .canceled, results := markCanceledFrom allCalls i st.results }
    else
      match lookupTool toolsList call.name with
      | none =>
        dispatchGo toolsList allCalls dB dD rest (i + 1)
          { st with results := setRes st.results i (notFoundResult call) }
      | some tool =>
        let st1 : DispatchState := { st with invoked := st.invoked ++ [i] }
        if dD i then
          { st1 with msgFinish := some .canceled, results := markCanceledFrom allCalls i st1.results }
        else
          let rr := tool.run { id := call.id, name := call.name, input := call.input }
          if permDeniedCheck rr.2 then
            dispatchGo toolsList allCalls dB dD rest (i + 1)
              { st1 with msgFinish := some .permissionDenied,
                         results := markCanceledFrom allCalls (i + 1) (setRes st1.results i (permDeniedResult call)) }
          else
            dispatchGo toolsList allCalls dB dD rest (i + 1)
              { st1 with results := setRes st1.results i (respResult call rr.1) }

/-- The zero-valued `toolResults` slice and the dispatch entry state:
`f0` is the assistant message's finish reason as set by the stream
(none if the stream set none). -/
def initDispatch (f0 : Option FinishReason) : DispatchState :=
  { results := fun _ => { toolCallID := "", content := "", metadata := "", isError := false },
    msgFinish := f0, invoked := [] }

/-- The whole dispatch phase: run the loop over all recorded tool calls
from index 0 on the freshly allocated result slice. -/
def streamDispatch (toolsList : List BaseTool) (calls : List ToolCall)
    (dB dD : Nat → Bool) (f0 : Option FinishReason) : DispatchState :=
  dispatchGo toolsList calls dB dD calls 0 (initDispatch f0)

/-- The `out:` tail of `streamAndHandleEvents` (agent.go lines 549-566):
with an empty result slice return no tool message, otherwise wrap the
results, in slice order, as the parts of one persisted Tool-role
message. -/
def finalizeToolResults (modelName sessionID : String) (calls : List ToolCall)
    (F : DispatchState) : Option Message :=
  let trs := (List.range calls.length).map F.results
  if trs.length = 0 then none
  else
    some { sessionID := sessionID, role := .tool,
           parts := trs.map ContentPart.toolResultPart,
           finishReason := none, model := "", provider := modelName }

/-- Agent event types. -/
inductive AgentEventType
  | error
  | response
deriving DecidableEq

/-- AgentEvent; the Go struct's zero Message and nil error are the
`none`s here. -/
structure AgentEvent where
  type : AgentEventType
  message : Option Message
  error : Option GoError
  done : Bool
deriving DecidableEq

/-- Helper `a.err` (agent.go lines 230-235). -/
def errEvent (e : GoError) : AgentEvent :=
  { type := .error, message := none, error := some e, done := false }

/-- What one successful round of the `processGeneration` loop decides
(agent.go lines 349-403): the assistant message after any finish
coercion, whether `messages.Update` was invoked on it in this round, the
history and the session's prompt queue after the round, whether the loop
continues, and the terminal event when it does not. -/
structure RoundResult where
  agentMessage : Message
  updateCalled : Bool
  historyAfter : List Message
  queueAfter : List String
  loops : Bool
  terminal : Option AgentEvent
deriving DecidableEq

/-- One round boundary of `processGeneration` after a successful
`streamAndHandleEvents` (agent.go lines 349-403).  With finish reason
tool-use and a tool message present: append both to history, drain every
queued prompt (empty ones included) into User messages, FIFO, and
continue.  With finish reason end-turn: drain the queue into User
messages skipping empty prompts, and continue exactly when the queue was
non-empty.  With no finish reason at all: coerce the message to
Canceled, persist it, and return the error event wrapping
`ErrRequestCancelled`.  Otherwise return the Response event, Done. -/
def processRound (sessionID : String) (history : List Message) (agentMessage : Message)
    (toolResults : Option Message) (queued : List String) : RoundResult :=
  if agentMessage.finishReason = some .toolUse ∧ toolResults.isSome then
    let hist := (history ++ [agentMessage, toolResults.getD default]) ++
      queued.map fun p => createUserMessage sessionID p []
    { agentMessage := agentMessage, updateCalled := false, historyAfter := hist,
      queueAfter := [], loops := true, terminal := none }
  else if agentMessage.finishReason = some .endTurn then
    let hist := history ++ (queued.filter fun p => ! decide (p = "")).map fun p => createUserMessage sessionID p []
    if queued.length > 0 then
      { agentMessage := agentMessage, updateCalled := false, historyAfter := hist,
        queueAfter := [], loops := true, terminal := none }
    else
      { agentMessage := agentMessage, updateCalled := false, historyAfter := hist,
        queueAfter := [], loops := false,
        terminal := some { type := .response, message := some agentMessage, error := none, done := true } }
  else if agentMessage.finishReason = none then
    let finalMsg : Message := { agentMessage with finishReason := some .canceled }
    { agentMessage := finalMsg, updateCalled := true, historyAfter := history,
      queueAfter := queued, loops := false, terminal := some (errEvent .errRequestCancelled) }
  else
    { agentMessage := agentMessage, updateCalled := false, historyAfter := history,
      queueAfter := queued, loops := false,
      terminal := some { type := .response, message := some agentMessage, error := none, done := true } }

/-- Looking up the key just written returns the written value. -/
lemma lookupQueue_setQueue_self (q : List (String × List String)) (sid : String) (v : List String) :
    lookupQueue (setQueue q sid v) sid = v := by
  induction q with
  | nil => simp [setQueue, lookupQueue]
  | cons p rest ih =>
    by_cases hp : p.1 = sid
    · simp [setQueue, lookupQueue, hp]
    · simp [setQueue, lookupQueue, hp, ih]

/-- After filtering a session id out of a list, no member equals it. -/
lemma any_filterNe_false (l : List String) (sid : String) :
    (l.filter fun s => ! decide (s = sid)).any (fun s => decide (s = sid)) = false := by
  induction l with
  | nil => rfl
  | cons a rest ih =>
    by_cases ha : a = sid
    · subst ha
      simp [List.filter_cons, ih]
    · simp [List.filter_cons, List.any_cons, ha, ih]

/-- Deleting a session's queue entry makes its lookup empty. -/
lemma lookupQueue_deleteQueue (q : List (String × List String)) (sid : String) :
    lookupQueue (deleteQueue q sid) sid = [] := by
  induction q with
  | nil => rfl
  | cons p rest ih =>
    by_cases hp : p.1 = sid
    · simpa [deleteQueue, List.filter_cons, hp] using ih
    · simpa [deleteQueue, List.filter_cons, lookupQueue, hp] using ih

/-- Claim C1: a `Run` call on a busy session returns a nil event channel
and a nil error, appends the content at the tail of that session's
pending-prompt queue (its `QueuedPrompts` count grows by one), starts no
second worker, and leaves the active-request set unchanged. -/
theorem run_enqueues_when_busy (st : AgentSt) (model : ModelInfo)
    (sessionID content : String) (attachments : List Attachment)
    (h : IsSessionBusy st sessionID = true) :
    (RunSync st model sessionID content attachments).chanReturned = false ∧
    (RunSync st model sessionID content attachments).err = none ∧
    (RunSync st model sessionID content attachments).workerStarted = false ∧
    lookupQueue (RunSync st model sessionID content attachments).st.promptQueue sessionID =
      lookupQueue st.promptQueue sessionID ++ [content] ∧
    QueuedPrompts (RunSync st model sessionID content attachments).st sessionID =
      QueuedPrompts st sessionID + 1 ∧
    (RunSync st model sessionID content attachments).st.activeRequests = st.activeRequests := by
  refine ⟨?_, ?_, ?_, ?_, ?_, ?_⟩ <;>
    simp [RunSync, h, QueuedPrompts, lookupQueue_setQueue_self]

/-- Witness for C1 at a concrete busy state. -/
theorem run_enqueues_when_busy_witness :
    IsSessionBusy ⟨["s"], [("s", ["p0"])], .processing⟩ "s" = true ∧
    QueuedPrompts (RunSync ⟨["s"], [("s", ["p0"])], .processing⟩
        ⟨"m", "m", true, true, 0, 0, 0, 0⟩ "s" "p1" []).st "s" =
      QueuedPrompts ⟨["s"], [("s", ["p0"])], .processing⟩ "s" + 1 :=
  ⟨by decide,
   (run_enqueues_when_busy ⟨["s"], [("s", ["p0"])], .processing⟩
     ⟨"m", "m", true, true, 0, 0, 0, 0⟩ "s" "p1" [] (by decide)).2.2.2.2.1⟩

/-- The active set after `Cancel`, as the source's conditional. -/
lemma cancel_active (st : AgentSt) (sid : String) :
    (Cancel st sid).st.activeRequests =
      if IsSessionBusy st sid = true then st.activeRequests.filter fun s => ! decide (s = sid)
      else st.activeRequests := rfl

/-- The prompt-queue map after `Cancel`, as the source's conditional. -/
lemma cancel_pq (st : AgentSt) (sid : String) :
    (Cancel st sid).st.promptQueue =
      if (lookupQueue st.promptQueue sid).length > 0 then deleteQueue st.promptQueue sid
      else st.promptQueue := rfl

/-- Function `Cancel` does not touch the coarse agent state field. -/
lemma cancel_state (st : AgentSt) (sid : String) : (Cancel st sid).st.state = st.state := rfl

/-- Function `Cancel` invokes the handle exactly when the session was busy. -/
lemma cancel_invoked_eq (st : AgentSt) (sid : String) :
    (Cancel st sid).cancelInvoked = IsSessionBusy st sid := rfl

/-- After `Cancel` the session is no longer in the active set. -/
lemma isSessionBusy_cancel (st : AgentSt) (sid : String) :
    IsSessionBusy (Cancel st sid).st sid = false := by
  rw [IsSessionBusy, cancel_active]
  by_cases h : IsSessionBusy st sid = true
  · rw [if_pos h]
    exact any_filterNe_false _ _
  · rw [if_neg h]
    simp only [Bool.not_eq_true] at h
    exact h

/-- After `Cancel` the session's pending queue is empty. -/
lemma queuedPrompts_cancel (st : AgentSt) (sid : String) :
    QueuedPrompts (Cancel st sid).st sid = 0 := by
  rw [QueuedPrompts, cancel_pq]
  by_cases h : (lookupQueue st.promptQueue sid).length > 0
  · rw [if_pos h, lookupQueue_deleteQueue]
    rfl
  · rw [if_neg h]
    omega

/-- Claim C9: `Cancel` leaves the session absent from the active set and
with an empty prompt queue, it is idempotent on the whole state, and on
an inactive session it is a no-op on the active set. -/
theorem cancel_idempotent (st : AgentSt) (sessionID : String) :
    IsSessionBusy (Cancel st sessionID).st sessionID = false ∧
    QueuedPrompts (Cancel st sessionID).st sessionID = 0 ∧
    (Cancel (Cancel st sessionID).st sessionID).st = (Cancel st sessionID).st ∧
    (Cancel (Cancel st sessionID).st sessionID).cancelInvoked = false ∧
    (IsSessionBusy st sessionID = false →
      (Cancel st sessionID).st.activeRequests = st.activeRequests ∧
      (Cancel st sessionID).cancelInvoked = false) := by
  have hbusy := isSessionBusy_cancel st sessionID
  have hq := queuedPrompts_cancel st sessionID
  have hlen : (lookupQueue (Cancel st sessionID).st.promptQueue sessionID).length = 0 := hq
  have ha : (Cancel (Cancel st sessionID).st sessionID).st.activeRequests =
      (Cancel st sessionID).st.activeRequests := by
    rw [cancel_active, if_neg (by rw [hbusy]; exact Bool.false_ne_true)]
  have hpq : (Cancel (Cancel st sessionID).st sessionID).st.promptQueue =
      (Cancel st sessionID).st.promptQueue := by
    rw [cancel_pq, if_neg (by omega)]
  refine ⟨hbusy, hq, ?_, ?_, ?_⟩
  · calc (Cancel (Cancel st sessionID).st sessionID).st
        = ⟨(Cancel (Cancel st sessionID).st sessionID).st.activeRequests,
           (Cancel (Cancel st sessionID).st sessionID).st.promptQueue,
           (Cancel (Cancel st sessionID).st sessionID).st.state⟩ := rfl
      _ = ⟨(Cancel st sessionID).st.activeRequests, (Cancel st sessionID).st.promptQueue,
           (Cancel st sessionID).st.state⟩ := by rw [ha, hpq, cancel_state]
      _ = (Cancel st sessionID).st := rfl
  · rw [cancel_invoked_eq]
    exact hbusy
  · intro h
    constructor
    · rw [cancel_active, if_neg (by rw [h]; exact Bool.false_ne_true)]
    · rw [cancel_invoked_eq]
      exact h

/-- Witness for C9 at a concrete state with an active request and a
queued prompt. -/
theorem cancel_idempotent_witness :
    (Cancel (Cancel ⟨["s"], [("s", ["p"])], .processing⟩ "s").st "s").st =
      (Cancel ⟨["s"], [("s", ["p"])], .processing⟩ "s").st ∧
    QueuedPrompts (Cancel ⟨["s"], [("s", ["p"])], .processing⟩ "s").st "s" = 0 ∧
    (Cancel ⟨[], [], .idle⟩ "s").st.activeRequests = [] :=
  ⟨(cancel_idempotent ⟨["s"], [("s", ["p"])], .processing⟩ "s").2.2.1,
   (cancel_idempotent ⟨["s"], [("s", ["p"])], .processing⟩ "s").2.1,
   ((cancel_idempotent ⟨[], [], .idle⟩ "s").2.2.2.2 (by decide)).1⟩

/-- Concrete fixtures for the C5 counterexample. -/
def exModel : ModelInfo :=
  { id := "m", name := "m", supportsImages := true, supportsTools := true,
    costPer1MIn := 3, costPer1MOut := 15, costPer1MInCached := 1, costPer1MOutCached := 2 }

def exUsage : TokenUsage := { inputTokens := 3, outputTokens := 0, cacheCreationTokens := 0, cacheReadTokens := 0 }

def exSession : SessionData := { cost := 0, promptTokens := 5, completionTokens := 7 }

/-- Counterexample to C5 as stated: `TrackUsage` does not add the usage's
tokens to the session's accumulated prompt-token total; it overwrites the
total (assignment, not `+=`), so a session that already recorded 5 prompt
tokens holds 3, not 8, after a completion with 3 input tokens. -/
theorem trackUsage_overwrites_counterexample :
    (TrackUsage exModel exUsage exSession).promptTokens = 3 ∧
    ¬ ((TrackUsage exModel exUsage exSession).promptTokens =
        exSession.promptTokens + (exUsage.inputTokens + exUsage.cacheCreationTokens)) := by
  decide

/-- Claim C5 as amended: on a complete event `TrackUsage` adds exactly
the priced cost of the usage to the session's running cost, but sets
(rather than adds to) the prompt and completion token totals from this
usage; two separate completions accrue the cost twice, while the token
totals reflect only the last completion. -/
theorem trackUsage_amended (model : ModelInfo) (u1 u2 : TokenUsage) (s : SessionData) :
    (TrackUsage model u1 s).cost = s.cost + usageCost model u1 ∧
    (TrackUsage model u1 s).promptTokens = u1.inputTokens + u1.cacheCreationTokens ∧
    (TrackUsage model u1 s).completionTokens = u1.outputTokens + u1.cacheReadTokens ∧
    (TrackUsage model u2 (TrackUsage model u1 s)).cost =
      s.cost + usageCost model u1 + usageCost model u2 ∧
    (TrackUsage model u2 (TrackUsage model u1 s)).promptTokens =
      u2.inputTokens + u2.cacheCreationTokens :=
  ⟨rfl, rfl, rfl, rfl, rfl⟩

/-- Claim C7: when a streamed turn ends with no finish reason ever set,
the round coerces the assistant message to Canceled, persists it, does
not loop, and returns the error event wrapping `ErrRequestCancelled`. -/
theorem processRound_noFinish_canceled (sessionID : String) (history : List Message)
    (agentMessage : Message) (toolResults : Option Message) (queued : List String)
    (h : agentMessage.finishReason = none) :
    (processRound sessionID history agentMessage toolResults queued).agentMessage.finishReason =
      some .canceled ∧
    (processRound sessionID history agentMessage toolResults queued).updateCalled = true ∧
    (processRound sessionID history agentMessage toolResults queued).loops = false ∧
    (processRound sessionID history agentMessage toolResults queued).terminal =
      some (errEvent .errRequestCancelled) := by
  refine ⟨?_, ?_, ?_, ?_⟩ <;> simp [processRound, h]

/-- Witness for C7 at a concrete finish-less assistant message. -/
theorem processRound_noFinish_canceled_witness :
    (processRound "s" [] ⟨"s", .assistant, [], none, "m", "p"⟩ none []).terminal =
      some (errEvent .errRequestCancelled) :=
  (processRound_noFinish_canceled "s" [] ⟨"s", .assistant, [], none, "m", "p"⟩ none [] rfl).2.2.2

/-- Concrete end-turn assistant message for the C4 counterexample. -/
def exEndTurnMsg : Message :=
  { sessionID := "s", role := .assistant, parts := [], finishReason := some .endTurn,
    model := "", provider := "" }

/-- Counterexample to C4 as stated: at an end-turn boundary with one
queued empty prompt, the queue is emptied and the loop continues, yet no
User message is appended to the history — the empty prompt is dropped
rather than converted, contradicting the claim that all queued prompts
are converted into User messages. -/
theorem processRound_drops_empty_prompt_counterexample :
    (processRound "s" [] exEndTurnMsg none [""]).queueAfter = [] ∧
    (processRound "s" [] exEndTurnMsg none [""]).loops = true ∧
    (processRound "s" [] exEndTurnMsg none [""]).historyAfter = [] ∧
    ¬ ((processRound "s" [] exEndTurnMsg none [""]).historyAfter =
        [createUserMessage "s" "" []]) := by
  decide

/-- Claim C4 as amended: at a round boundary all queued prompts are
removed (the queue is empty afterwards) and converted to User messages
appended to history in FIFO order — except that at an end-turn boundary
empty prompts are dropped rather than converted; at end-turn the loop
continues exactly when any prompt (empty ones included) was queued. -/
theorem processRound_drains_queue (sessionID : String) (history : List Message)
    (am : Message) (tr : Option Message) (queued : List String) :
    (am.finishReason = some .toolUse → tr.isSome = true →
      (processRound sessionID history am tr queued).queueAfter = [] ∧
      (processRound sessionID history am tr queued).loops = true ∧
      (processRound sessionID history am tr queued).historyAfter =
        (history ++ [am, tr.getD default]) ++
          queued.map fun p => createUserMessage sessionID p []) ∧
    (am.finishReason = some .endTurn →
      (processRound sessionID history am tr queued).queueAfter = [] ∧
      (processRound sessionID history am tr queued).loops = !queued.isEmpty ∧
      (processRound sessionID history am tr queued).historyAfter =
        history ++ ((queued.filter fun p => ! decide (p = "")).map
          fun p => createUserMessage sessionID p [])) := by
  constructor
  · intro hf htr
    refine ⟨?_, ?_, ?_⟩ <;> simp [processRound, hf, htr]
  · intro hf
    have hne : ¬ (am.finishReason = some .toolUse ∧ tr.isSome = true) := by
      rintro ⟨h1, -⟩
      rw [hf] at h1
      cases h1
    rcases Nat.eq_zero_or_pos queued.length with hq | hq
    · have : queued = [] := List.length_eq_zero.mp hq
      subst this
      refine ⟨?_, ?_, ?_⟩ <;> simp [processRound, hf, hne]
    · have hq2 : queued ≠ [] := by
        intro h
        subst h
        simp at hq
      refine ⟨?_, ?_, ?_⟩ <;> simp [processRound, hf, hne, hq, hq2]

/-- Witness for C4 (amended) at a tool-use boundary with two queued
prompts and at an end-turn boundary with a mixed queue. -/
theorem processRound_drains_queue_witness :
    (processRound "s" [] ⟨"s", .assistant, [], some .toolUse, "", ""⟩
        (some ⟨"s", .tool, [], none, "", ""⟩) ["a", "b"]).historyAfter =
      [⟨"s", .assistant, [], some .toolUse, "", ""⟩, ⟨"s", .tool, [], none, "", ""⟩,
        createUserMessage "s" "a" [], createUserMessage "s" "b" []] ∧
    (processRound "s" [] exEndTurnMsg none ["", "c"]).historyAfter =
      [createUserMessage "s" "c" []] ∧
    (processRound "s" [] exEndTurnMsg none ["", "c"]).loops = true := by
  refine ⟨?_, ?_, ?_⟩
  · have h := (processRound_drains_queue "s" []
      ⟨"s", .assistant, [], some .toolUse, "", ""⟩ (some ⟨"s", .tool, [], none, "", ""⟩)
      ["a", "b"]).1 rfl rfl
    rw [h.2.2]
    decide
  · have h := (processRound_drains_queue "s" [] exEndTurnMsg none ["", "c"]).2 rfl
    rw [h.2.2]
    decide
  · have h := (processRound_drains_queue "s" [] exEndTurnMsg none ["", "c"]).2 rfl
    rw [h.2.1]
    decide

/-- Claim C10: when the model does not support images, `Run` silently
drops every supplied attachment before the turn starts — the worker
sees no attachments, the created User message has the text part only,
and the caller gets no error. -/
theorem run_drops_attachments_without_image_support (st : AgentSt) (model : ModelInfo)
    (sessionID content : String) (attachments : List Attachment)
    (h : model.supportsImages = false) :
    (RunSync st model sessionID content attachments).effAttachments = [] ∧
    (RunSync st model sessionID content attachments).err = none ∧
    createUserMessage sessionID content
        (attachmentParts (RunSync st model sessionID content attachments).effAttachments) =
      { sessionID := sessionID, role := .user, parts := [.text content],
        finishReason := none, model := "", provider := "" } := by
  have heff : (RunSync st model sessionID content attachments).effAttachments = [] := by
    rcases attachments with - | ⟨a, rest⟩ <;>
      by_cases hb : IsSessionBusy st sessionID = true <;>
        simp [RunSync, h, hb]
  refine ⟨heff, ?_, ?_⟩
  · by_cases hb : IsSessionBusy st sessionID = true <;> simp [RunSync, hb]
  · rw [heff]
    rfl

/-- Witness for C10: an image-less model with one attachment supplied. -/
theorem run_drops_attachments_witness :
    (RunSync ⟨[], [], .idle⟩ ⟨"m", "m", false, true, 0, 0, 0, 0⟩ "s" "hi"
        [⟨"/a.png", "image/png", "xx"⟩]).effAttachments = [] ∧
    (RunSync ⟨[], [], .idle⟩ ⟨"m", "m", false, true, 0, 0, 0, 0⟩ "s" "hi"
        [⟨"/a.png", "image/png", "xx"⟩]).err = none :=
  ⟨(run_drops_attachments_without_image_support ⟨[], [], .idle⟩
      ⟨"m", "m", false, true, 0, 0, 0, 0⟩ "s" "hi" [⟨"/a.png", "image/png", "xx"⟩] rfl).1,
   (run_drops_attachments_without_image_support ⟨[], [], .idle⟩
      ⟨"m", "m", false, true, 0, 0, 0, 0⟩ "s" "hi" [⟨"/a.png", "image/png", "xx"⟩] rfl).2.1⟩

/-- The permission-denied test of agent.go line 524 never passes: its
`errors.Is` target is allocated at the comparison site. -/
lemma permDeniedCheck_false (o : Option GoError) : permDeniedCheck o = false := by
  cases o <;> rfl

/-- Facts packaged from a cons-shaped `drop`. -/
lemma drop_cons_facts {α : Type} [Inhabited α] {l : List α} {i : Nat} {a : α} {rest : List α}
    (h : l.drop i = a :: rest) :
    i < l.length ∧ l.getD i default = a ∧ l.drop (i + 1) = rest := by
  have h1 : i < l.length := by
    have hl := List.length_drop i l
    rw [h] at hl
    simp only [List.length_cons] at hl
    omega
  have h2 : l.getD i default = a := by
    have h0 : (l.drop i).head? = some a := by rw [h]; rfl
    rw [List.head?_drop] at h0
    rw [List.getD_eq_getElem?_getD, h0]
    rfl
  have h3 : l.drop (i + 1) = rest := by
    rw [← List.drop_drop, h]
    rfl
  exact ⟨h1, h2, h3⟩

/-- What the dispatch loop records for a call when cancellation is not
observed: the not-found error result, or the result built from the
tool's response. -/
def resolveCall (toolsList : List BaseTool) (call : ToolCall) : ToolResult :=
  match lookupTool toolsList call.name with
  | none => notFoundResult call
  | some tool => respResult call (tool.run { id := call.id, name := call.name, input := call.input }).1

/-- Dispatch under oracles that never observe cancellation: every index
gets its resolved result, the message finish reason is untouched, and
exactly the indices whose name resolves to a tool are invoked. -/
lemma dispatchGo_noCancel (toolsList : List BaseTool) (allCalls : List ToolCall)
    (dB dD : Nat → Bool) (hB : ∀ j, dB j = false) (hD : ∀ j, dD j = false) :
    ∀ (remaining : List ToolCall) (i : Nat) (st : DispatchState),
      remaining = allCalls.drop i →
      (∀ j, (dispatchGo toolsList allCalls dB dD remaining i st).results j =
          if i ≤ j ∧ j < allCalls.length then resolveCall toolsList (allCalls.getD j default)
          else st.results j) ∧
      (dispatchGo toolsList allCalls dB dD remaining i st).msgFinish = st.msgFinish ∧
      (∀ k, k ∈ (dispatchGo toolsList allCalls dB dD remaining i st).invoked ↔
          k ∈ st.invoked ∨ (i ≤ k ∧ k < allCalls.length ∧
            (lookupTool toolsList (allCalls.getD k default).name).isSome = true)) := by
  intro remaining
  induction remaining with
  | nil =>
    intro i st hdrop
    have hlen : allCalls.length ≤ i := List.drop_eq_nil_iff.mp hdrop.symm
    refine ⟨?_, rfl, ?_⟩
    · intro j
      rw [if_neg (by omega)]
      rfl
    · intro k
      constructor
      · intro h
        exact Or.inl h
      · rintro (h | ⟨h1, h2, -⟩)
        · exact h
        · omega
  | cons call rest ih =>
    intro i st hdrop
    obtain ⟨hi, hget, hrest⟩ := drop_cons_facts hdrop.symm
    cases hl : lookupTool toolsList call.name with
    | none =>
      have hstep : dispatchGo toolsList allCalls dB dD (call :: rest) i st =
          dispatchGo toolsList allCalls dB dD rest (i + 1)
            { st with results := setRes st.results i (notFoundResult call) } := by
        simp [dispatchGo, hB i, hl]
      obtain ⟨ihr, ihf, ihk⟩ := ih (i + 1)
        { st with results := setRes st.results i (notFoundResult call) } hrest.symm
      rw [hstep]
      refine ⟨?_, ihf, ?_⟩
      · intro j
        rw [ihr j]
        by_cases hj1 : i + 1 ≤ j ∧ j < allCalls.length
        · rw [if_pos hj1, if_pos (by omega)]
        · rw [if_neg hj1]
          by_cases hj2 : i ≤ j ∧ j < allCalls.length
          · have hj : j = i := by omega
            subst hj
            rw [if_pos hj2, hget]
            simp [setRes, resolveCall, hl]
          · rw [if_neg hj2]
            simp only [setRes]
            rw [if_neg (by omega)]
      · intro k
        rw [ihk k]
        constructor
        · rintro (h1 | ⟨h1, h2, h3⟩)
          · exact Or.inl h1
          · exact Or.inr ⟨by omega, h2, h3⟩
        · rintro (h1 | ⟨h1, h2, h3⟩)
          · exact Or.inl h1
          · by_cases hk : k = i
            · subst hk
              rw [hget, hl] at h3
              simp at h3
            · exact Or.inr ⟨by omega, h2, h3⟩
    | some tool =>
      have hstep : dispatchGo toolsList allCalls dB dD (call :: rest) i st =
          dispatchGo toolsList allCalls dB dD rest (i + 1)
            { st with invoked := st.invoked ++ [i],
                      results := setRes st.results i (respResult call
                        (tool.run { id := call.id, name := call.name, input := call.input }).1) } := by
        simp [dispatchGo, hB i, hD i, hl, permDeniedCheck_false]
      obtain ⟨ihr, ihf, ihk⟩ := ih (i + 1)
        { st with invoked := st.invoked ++ [i],
                  results := setRes st.results i (respResult call
                    (tool.run { id := call.id, name := call.name, input := call.input }).1) } hrest.symm
      rw [hstep]
      refine ⟨?_, ihf, ?_⟩
      · intro j
        rw [ihr j]
        by_cases hj1 : i + 1 ≤ j ∧ j < allCalls.length
        · rw [if_pos hj1, if_pos (by omega)]
        · rw [if_neg hj1]
          by_cases hj2 : i ≤ j ∧ j < allCalls.length
          · have hj : j = i := by omega
            subst hj
            rw [if_pos hj2, hget]
            simp [setRes, resolveCall, hl]
          · rw [if_neg hj2]
            simp only [setRes]
            rw [if_neg (by omega)]
      · intro k
        rw [ihk k]
        constructor
        · rintro (h1 | ⟨h1, h2, h3⟩)
          · rcases List.mem_append.mp h1 with h4 | h4
            · exact Or.inl h4
            · have hk : k = i := List.mem_singleton.mp h4
              subst hk
              refine Or.inr ⟨le_refl k, hi, ?_⟩
              rw [hget, hl]
              rfl
          · exact Or.inr ⟨by omega, h2, h3⟩
        · rintro (h1 | ⟨h1, h2, h3⟩)
          · exact Or.inl (List.mem_append.mpr (Or.inl h1))
          · by_cases hk : k = i
            · subst hk
              exact Or.inl (List.mem_append.mpr (Or.inr (List.mem_singleton.mpr rfl)))
            · exact Or.inr ⟨by omega, h2, h3⟩

/-- Dispatch when cancellation is first observed at index `i` (at the
top-of-iteration check, or during the race while running a resolved tool
at `i`): every index from `i` on carries the canceled error result, the
message is finalized Canceled, and no index beyond `i` is invoked. -/
lemma dispatchGo_cancelObs (toolsList : List BaseTool) (allCalls : List ToolCall)
    (dB dD : Nat → Bool) (i : Nat) (hi : i < allCalls.length)
    (hobs : dB i = true ∨
      ((lookupTool toolsList (allCalls.getD i default).name).isSome = true ∧ dD i = true)) :
    ∀ (remaining : List ToolCall) (cur : Nat) (st : DispatchState),
      remaining = allCalls.drop cur → cur ≤ i →
      (∀ j, cur ≤ j → j < i → dB j = false ∧ dD j = false) →
      ((∀ j, i ≤ j → j < allCalls.length →
          (dispatchGo toolsList allCalls dB dD remaining cur st).results j =
            canceledResult (allCalls.getD j default)) ∧
       (dispatchGo toolsList allCalls dB dD remaining cur st).msgFinish = some .canceled ∧
       (∀ k, k ∈ (dispatchGo toolsList allCalls dB dD remaining cur st).invoked →
          k ∈ st.invoked ∨ k ≤ i)) := by
  intro remaining
  induction remaining with
  | nil =>
    intro cur st hdrop hcur hprev
    have := List.drop_eq_nil_iff.mp hdrop.symm
    omega
  | cons call rest ih =>
    intro cur st hdrop hcur hprev
    obtain ⟨hcl, hget, hrest⟩ := drop_cons_facts hdrop.symm
    by_cases hci : cur = i
    · subst hci
      cases hB : dB cur with
      | true =>
        have hstep : dispatchGo toolsList allCalls dB dD (call :: rest) cur st =
            { st with msgFinish := some .canceled,
                      results := markCanceledFrom allCalls cur st.results } := by
          simp [dispatchGo, hB]
        rw [hstep]
        refine ⟨?_, rfl, fun k hk => Or.inl hk⟩
        intro j h1 h2
        simp only [markCanceledFrom]
        rw [if_pos ⟨h1, h2⟩]
      | false =>
        rcases hobs with h | ⟨hsome, hDi⟩
        · rw [hB] at h
          cases h
        rw [hget] at hsome
        obtain ⟨tool, hl⟩ := Option.isSome_iff_exists.mp hsome
        have hstep : dispatchGo toolsList allCalls dB dD (call :: rest) cur st =
            { st with invoked := st.invoked ++ [cur], msgFinish := some .canceled,
                      results := markCanceledFrom allCalls cur st.results } := by
          simp [dispatchGo, hB, hl, hDi]
        rw [hstep]
        refine ⟨?_, rfl, ?_⟩
        · intro j h1 h2
          simp only [markCanceledFrom]
          rw [if_pos ⟨h1, h2⟩]
        · intro k hk
          rcases List.mem_append.mp hk with h4 | h4
          · exact Or.inl h4
          · rw [List.mem_singleton.mp h4]
            exact Or.inr (le_refl cur)
    · have hlt : cur < i := by omega
      obtain ⟨hBc, hDc⟩ := hprev cur (le_refl cur) hlt
      cases hl : lookupTool toolsList call.name with
      | none =>
        have hstep : dispatchGo toolsList allCalls dB dD (call :: rest) cur st =
            dispatchGo toolsList allCalls dB dD rest (cur + 1)
              { st with results := setRes st.results cur (notFoundResult call) } := by
          simp [dispatchGo, hBc, hl]
        obtain ⟨ihr, ihf, ihk⟩ := ih (cur + 1)
          { st with results := setRes st.results cur (notFoundResult call) } hrest.symm
          (by omega) (fun j hj1 hj2 => hprev j (by omega) hj2)
        rw [hstep]
        exact ⟨ihr, ihf, fun k hk => ihk k hk⟩
      | some tool =>
        have hstep : dispatchGo toolsList allCalls dB dD (call :: rest) cur st =
            dispatchGo toolsList allCalls dB dD rest (cur + 1)
              { st with invoked := st.invoked ++ [cur],
                        results := setRes st.results cur (respResult call
                          (tool.run { id := call.id, name := call.name, input := call.input }).1) } := by
          simp [dispatchGo, hBc, hDc, hl, permDeniedCheck_false]
        obtain ⟨ihr, ihf, ihk⟩ := ih (cur + 1)
          { st with invoked := st.invoked ++ [cur],
                    results := setRes st.results cur (respResult call
                      (tool.run { id := call.id, name := call.name, input := call.input }).1) }
          hrest.symm (by omega) (fun j hj1 hj2 => hprev j (by omega) hj2)
        rw [hstep]
        refine ⟨ihr, ihf, ?_⟩
        intro k hk
        rcases ihk k hk with h4 | h4
        · rcases List.mem_append.mp h4 with h5 | h5
          · exact Or.inl h5
          · rw [List.mem_singleton.mp h5]
            exact Or.inr (by omega)
        · exact Or.inr h4

/-- The invocation order is strictly increasing: tools run in the order
their calls appear in the assistant message. -/
lemma dispatchGo_invoked_sorted (toolsList : List BaseTool) (allCalls : List ToolCall)
    (dB dD : Nat → Bool) :
    ∀ (remaining : List ToolCall) (cur : Nat) (st : DispatchState),
      List.Pairwise (· < ·) st.invoked → (∀ k ∈ st.invoked, k < cur) →
      List.Pairwise (· < ·) (dispatchGo toolsList allCalls dB dD remaining cur st).invoked := by
  intro remaining
  induction remaining with
  | nil =>
    intro cur st hs hb
    exact hs
  | cons call rest ih =>
    intro cur st hs hb
    have hsorted1 : List.Pairwise (· < ·) (st.invoked ++ [cur]) := by
      rw [List.pairwise_append]
      refine ⟨hs, List.pairwise_singleton _ _, ?_⟩
      intro a ha b hbm
      rw [List.mem_singleton.mp hbm]
      exact hb a ha
    have hbound1 : ∀ k ∈ st.invoked ++ [cur], k < cur + 1 := by
      intro k hk
      rcases List.mem_append.mp hk with h | h
      · have := hb k h
        omega
      · rw [List.mem_singleton.mp h]
        omega
    cases hB : dB cur with
    | true =>
      have hstep : dispatchGo toolsList allCalls dB dD (call :: rest) cur st =
          { st with msgFinish := some .canceled,
                    results := markCanceledFrom allCalls cur st.results } := by
        simp [dispatchGo, hB]
      rw [hstep]
      exact hs
    | false =>
      cases hl : lookupTool toolsList call.name with
      | none =>
        have hstep : dispatchGo toolsList allCalls dB dD (call :: rest) cur st =
            dispatchGo toolsList allCalls dB dD rest (cur + 1)
              { st with results := setRes st.results cur (notFoundResult call) } := by
          simp [dispatchGo, hB, hl]
        rw [hstep]
        exact ih (cur + 1) _ hs (fun k hk => by have := hb k hk; omega)
      | some tool =>
        cases hD : dD cur with
        | true =>
          have hstep : dispatchGo toolsList allCalls dB dD (call :: rest) cur st =
              { st with invoked := st.invoked ++ [cur], msgFinish := some .canceled,
                        results := markCanceledFrom allCalls cur st.results } := by
            simp [dispatchGo, hB, hl, hD]
          rw [hstep]
          exact hsorted1
        | false =>
          have hstep : dispatchGo toolsList allCalls dB dD (call :: rest) cur st =
              dispatchGo toolsList allCalls dB dD rest (cur + 1)
                { st with invoked := st.invoked ++ [cur],
                          results := setRes st.results cur (respResult call
                            (tool.run { id := call.id, name := call.name, input := call.input }).1) } := by
            simp [dispatchGo, hB, hl, hD, permDeniedCheck_false]
          rw [hstep]
          exact ih (cur + 1) _ hsorted1 hbound1

/-- Every result slot of the finished dispatch answers the tool call at
its own index, whatever the oracles do. -/
lemma dispatchGo_ids (toolsList : List BaseTool) (allCalls : List ToolCall)
    (dB dD : Nat → Bool) :
    ∀ (remaining : List ToolCall) (cur : Nat) (st : DispatchState),
      remaining = allCalls.drop cur →
      (∀ j, j < cur → (st.results j).toolCallID = (allCalls.getD j default).id) →
      ∀ j, j < allCalls.length →
        ((dispatchGo toolsList allCalls dB dD remaining cur st).results j).toolCallID =
          (allCalls.getD j default).id := by
  intro remaining
  induction remaining with
  | nil =>
    intro cur st hdrop hpre j hj
    have := List.drop_eq_nil_iff.mp hdrop.symm
    exact hpre j (by omega)
  | cons call rest ih =>
    intro cur st hdrop hpre j hj
    obtain ⟨hcl, hget, hrest⟩ := drop_cons_facts hdrop.symm
    have hnext : ∀ (v : ToolResult), v.toolCallID = call.id →
        ∀ j2, j2 < cur + 1 → ((setRes st.results cur v) j2).toolCallID =
          (allCalls.getD j2 default).id := by
      intro v hv j2 hj2
      simp only [setRes]
      by_cases h : j2 = cur
      · subst h
        rw [if_pos rfl, hv, hget]
      · rw [if_neg h]
        exact hpre j2 (by omega)
    cases hB : dB cur with
    | true =>
      have hstep : dispatchGo toolsList allCalls dB dD (call :: rest) cur st =
          { st with msgFinish := some .canceled,
                    results := markCanceledFrom allCalls cur st.results } := by
        simp [dispatchGo, hB]
      rw [hstep]
      simp only [markCanceledFrom]
      by_cases h : cur ≤ j ∧ j < allCalls.length
      · rw [if_pos h]
        rfl
      · rw [if_neg h]
        exact hpre j (by omega)
    | false =>
      cases hl : lookupTool toolsList call.name with
      | none =>
        have hstep : dispatchGo toolsList allCalls dB dD (call :: rest) cur st =
            dispatchGo toolsList allCalls dB dD rest (cur + 1)
              { st with results := setRes st.results cur (notFoundResult call) } := by
          simp [dispatchGo, hB, hl]
        rw [hstep]
        exact ih (cur + 1) _ hrest.symm (hnext _ rfl) j hj
      | some tool =>
        cases hD : dD cur with
        | true =>
          have hstep : dispatchGo toolsList allCalls dB dD (call :: rest) cur st =
              { st with invoked := st.invoked ++ [cur], msgFinish := some .canceled,
                        results := markCanceledFrom allCalls cur st.results } := by
            simp [dispatchGo, hB, hl, hD]
          rw [hstep]
          simp only [markCanceledFrom]
          by_cases h : cur ≤ j ∧ j < allCalls.length
          · rw [if_pos h]
            rfl
          · rw [if_neg h]
            exact hpre j (by omega)
        | false =>
          have hstep : dispatchGo toolsList allCalls dB dD (call :: rest) cur st =
              dispatchGo toolsList allCalls dB dD rest (cur + 1)
                { st with invoked := st.invoked ++ [cur],
                          results := setRes st.results cur (respResult call
                            (tool.run { id := call.id, name := call.name, input := call.input }).1) } := by
            simp [dispatchGo, hB, hl, hD, permDeniedCheck_false]
          rw [hstep]
          exact ih (cur + 1) _ hrest.symm (hnext _ rfl) j hj

/-- A registered tool fixture that always succeeds. -/
def exTool : BaseTool :=
  { name := "ls", run := fun _ => ({ content := "ok", metadata := "", isError := false }, none) }

/-- Call fixtures addressed to the registered tool. -/
def exCall0 : ToolCall := ⟨"c0", "ls", "i0"⟩

def exCall1 : ToolCall := ⟨"c1", "ls", "i1"⟩

/-- Counterexample to C2 as stated: with cancellation observed before
the only tool call, the recorded result content is "Tool execution
canceled by user" — not the claimed "canceled by user". -/
theorem dispatch_cancel_content_counterexample :
    ((streamDispatch [exTool] [exCall0] (fun _ => true) (fun _ => false)
        (some .toolUse)).results 0).content = "Tool execution canceled by user" ∧
    ¬ (((streamDispatch [exTool] [exCall0] (fun _ => true) (fun _ => false)
        (some .toolUse)).results 0).content = "canceled by user") := by
  decide

/-- Claim C2 as amended: tools are dispatched strictly in the order the
calls appear (the invocation index list is strictly increasing); when
cancellation is first observed before tool call `i`, or during its
execution race, every call from `i` to the end receives an error result
with content "Tool execution canceled by user", no tool at an index
greater than `i` is ever invoked, and the assistant message is
finalized with finish reason Canceled. -/
theorem dispatch_cancellation (toolsList : List BaseTool) (calls : List ToolCall)
    (dB dD : Nat → Bool) (f0 : Option FinishReason) (i : Nat) (hi : i < calls.length)
    (hfirst : ∀ j, j < i → dB j = false ∧ dD j = false)
    (hobs : dB i = true ∨
      ((lookupTool toolsList (calls.getD i default).name).isSome = true ∧ dD i = true)) :
    (∀ j, i ≤ j → j < calls.length →
      (streamDispatch toolsList calls dB dD f0).results j =
        { toolCallID := (calls.getD j default).id,
          content := "Tool execution canceled by user", metadata := "", isError := true }) ∧
    (streamDispatch toolsList calls dB dD f0).msgFinish = some .canceled ∧
    (∀ k, k ∈ (streamDispatch toolsList calls dB dD f0).invoked → k ≤ i) ∧
    List.Pairwise (· < ·) (streamDispatch toolsList calls dB dD f0).invoked := by
  unfold streamDispatch
  obtain ⟨hr, hf, hk⟩ := dispatchGo_cancelObs toolsList calls dB dD i hi hobs calls 0
    (initDispatch f0) rfl (by omega) (fun j h1 h2 => hfirst j h2)
  refine ⟨?_, hf, ?_, ?_⟩
  · intro j h1 h2
    rw [hr j h1 h2]
    rfl
  · intro k hkk
    rcases hk k hkk with h | h
    · exact absurd h (List.not_mem_nil k)
    · exact h
  · exact dispatchGo_invoked_sorted toolsList calls dB dD calls 0 (initDispatch f0)
      List.Pairwise.nil (fun k hk2 => absurd hk2 (List.not_mem_nil k))

/-- Witness for C2 (amended): two calls, cancellation observed before
index 1. -/
theorem dispatch_cancellation_witness :
    (streamDispatch [exTool] [exCall0, exCall1] (fun j => decide (j = 1)) (fun _ => false)
        (some .toolUse)).results 1 =
      { toolCallID := "c1", content := "Tool execution canceled by user",
        metadata := "", isError := true } ∧
    (streamDispatch [exTool] [exCall0, exCall1] (fun j => decide (j = 1)) (fun _ => false)
        (some .toolUse)).msgFinish = some .canceled := by
  have h := dispatch_cancellation [exTool] [exCall0, exCall1]
    (fun j => decide (j = 1)) (fun _ => false) (some .toolUse) 1
    (by decide) (by decide) (Or.inl (by decide))
  exact ⟨h.1 1 (by decide) (by decide), h.2.1⟩

/-- A tool fixture whose `Run` fails with `fmt.Errorf("permission denied")`
and returns the zero response, as a Go tool returning `(ToolResponse{}, err)`. -/
def permErrTool : BaseTool :=
  { name := "pd", run := fun _ =>
      ({ content := "", metadata := "", isError := false }, some (.fresh "permission denied")) }

def permCall : ToolCall := ⟨"cp", "pd", "ip"⟩

def afterCall : ToolCall := ⟨"c2", "pd", "i2"⟩

/-- Claim C3 is contradicted by the code: a tool whose `Run` returns the
error `fmt.Errorf("permission denied")` never triggers the
permission-denied branch, because `errors.Is` against a target freshly
allocated at the comparison site holds for no error.  The call's result
is recorded from the returned (zero) response with no error flag and
without the "Permission denied" content, the message keeps its stream
finish reason rather than Permission-Denied, and the next call is still
invoked rather than processing stopping. -/
theorem dispatch_permission_denied_dead :
    permDeniedCheck (permErrTool.run permCall).2 = false ∧
    (streamDispatch [permErrTool] [permCall, afterCall] (fun _ => false) (fun _ => false)
        (some .toolUse)).results 0 =
      { toolCallID := "cp", content := "", metadata := "", isError := false } ∧
    (streamDispatch [permErrTool] [permCall, afterCall] (fun _ => false) (fun _ => false)
        (some .toolUse)).msgFinish = some .toolUse ∧
    (streamDispatch [permErrTool] [permCall, afterCall] (fun _ => false) (fun _ => false)
        (some .toolUse)).invoked = [0, 1] := by
  refine ⟨rfl, ?_, ?_, ?_⟩ <;> decide

/-- Claim C6: a recorded call whose name matches no configured tool gets
a result with `isError` set and content "Tool not found: <name>"; this
is not fatal — the message finish reason is untouched and every later
resolvable call is still invoked, so the turn continues. -/
theorem dispatch_tool_not_found (toolsList : List BaseTool) (calls : List ToolCall)
    (dB dD : Nat → Bool) (f0 : Option FinishReason) (i : Nat)
    (hB : ∀ j, dB j = false) (hD : ∀ j, dD j = false)
    (hi : i < calls.length)
    (hnone : lookupTool toolsList (calls.getD i default).name = none) :
    (streamDispatch toolsList calls dB dD f0).results i =
      { toolCallID := (calls.getD i default).id,
        content := "Tool not found: " ++ (calls.getD i default).name,
        metadata := "", isError := true } ∧
    (streamDispatch toolsList calls dB dD f0).msgFinish = f0 ∧
    (∀ k, i < k → k < calls.length →
      (lookupTool toolsList (calls.getD k default).name).isSome = true →
      k ∈ (streamDispatch toolsList calls dB dD f0).invoked) := by
  unfold streamDispatch
  obtain ⟨hr, hf, hk⟩ := dispatchGo_noCancel toolsList calls dB dD hB hD calls 0
    (initDispatch f0) rfl
  refine ⟨?_, hf, ?_⟩
  · rw [hr i, if_pos ⟨Nat.zero_le i, hi⟩]
    simp only [resolveCall, hnone]
    rfl
  · intro k h1 h2 h3
    exact (hk k).mpr (Or.inr ⟨Nat.zero_le k, h2, h3⟩)

/-- Witness for C6: an unknown name at index 0, a resolvable call after it. -/
theorem dispatch_tool_not_found_witness :
    (streamDispatch [exTool] [⟨"c0", "nope", "i"⟩, exCall1] (fun _ => false) (fun _ => false)
        (some .toolUse)).results 0 =
      { toolCallID := "c0", content := "Tool not found: nope", metadata := "", isError := true } ∧
    1 ∈ (streamDispatch [exTool] [⟨"c0", "nope", "i"⟩, exCall1] (fun _ => false) (fun _ => false)
        (some .toolUse)).invoked := by
  have h := dispatch_tool_not_found [exTool] [⟨"c0", "nope", "i"⟩, exCall1]
    (fun _ => false) (fun _ => false) (some .toolUse) 0
    (fun j => rfl) (fun j => rfl) (by decide) rfl
  exact ⟨h.1, h.2.2 1 (by decide) (by decide) rfl⟩

/-- Claim C8: the dispatch keeps one result slot per recorded call; with
zero calls no Tool message is created, and with at least one call
exactly one Tool-role message is created whose parts are, in call
order, the tool results, the one at index `j` answering call `j`. -/
theorem toolResults_message (toolsList : List BaseTool) (calls : List ToolCall)
    (dB dD : Nat → Bool) (f0 : Option FinishReason) (modelName sessionID : String) :
    (calls.length = 0 →
      finalizeToolResults modelName sessionID calls
        (streamDispatch toolsList calls dB dD f0) = none) ∧
    (calls.length ≠ 0 →
      ∃ m, finalizeToolResults modelName sessionID calls
          (streamDispatch toolsList calls dB dD f0) = some m ∧
        m.role = .tool ∧
        m.parts.length = calls.length ∧
        (∀ j, j < calls.length →
          m.parts.getD j (.text "") =
            .toolResultPart ((streamDispatch toolsList calls dB dD f0).results j) ∧
          ((streamDispatch toolsList calls dB dD f0).results j).toolCallID =
            (calls.getD j default).id)) := by
  constructor
  · intro h
    simp [finalizeToolResults, h]
  · intro h
    have hm : finalizeToolResults modelName sessionID calls
        (streamDispatch toolsList calls dB dD f0) =
        some ⟨sessionID, .tool,
          ((List.range calls.length).map
            (streamDispatch toolsList calls dB dD f0).results).map ContentPart.toolResultPart,
          none, "", modelName⟩ := by
      simp only [finalizeToolResults]
      rw [if_neg (by simpa using h)]
    refine ⟨_, hm, rfl, ?_, ?_⟩
    · simp
    · intro j hj
      constructor
      · simp [List.getD_eq_getElem?_getD, List.getElem?_map, List.getElem?_range, hj]
      · have := dispatchGo_ids toolsList calls dB dD calls 0 (initDispatch f0) rfl
          (fun j2 hj2 => absurd hj2 (Nat.not_lt_zero j2)) j hj
        exact this

/-- Witness for C8: the empty-call case and a one-call turn. -/
theorem toolResults_message_witness :
    finalizeToolResults "m" "s" []
      (streamDispatch [exTool] [] (fun _ => false) (fun _ => false) (some .endTurn)) = none ∧
    ∃ m, finalizeToolResults "m" "s" [exCall0]
        (streamDispatch [exTool] [exCall0] (fun _ => false) (fun _ => false)
          (some .toolUse)) = some m ∧
      m.parts.length = 1 := by
  constructor
  · exact (toolResults_message [exTool] [] (fun _ => false) (fun _ => false)
      (some .endTurn) "m" "s").1 rfl
  · obtain ⟨m, h1, h2, h3, h4⟩ := (toolResults_message [exTool] [exCall0]
      (fun _ => false) (fun _ => false) (some .toolUse) "m" "s").2 (by decide)
    exact ⟨m, h1, h3⟩

end Gentica
